import Mathlib

/-!
Verification of the WiX installer-definition compiler of tugger
(src/tugger/src/wix.rs): identifier derivation (directory, component,
file and group ids, version-5 UUIDs), the file-manifest-to-WiX fragment
writer, architecture selection and upgrade-code derivation.

Machine integers of the Rust code are modelled as Nat with explicit
reduction modulo 2 ^ 32 (SHA-1 words) and modulo 256 (bytes).  Strings
are Lean strings; Rust str::as_bytes is modelled by UTF-8 encoding of
the character list.  RPaths are lists of components; the forward-slash
display form used by the code (paths in a FileManifest are relative
forward-slash paths) is the intercalation with "/".
-/

/-! ## Byte-level utilities -/

/-- Modulus for 32-bit words. -/
def M32 : Nat := 4294967296

/-- Rotate a 32-bit word left by k bits. -/
def rotl (k n : Nat) : Nat := ((n <<< k) ||| (n >>> (32 - k))) % M32

/-- UTF-8 encoding of one scalar value, as in Rust str::as_bytes. -/
def utf8Char (c : Char) : List Nat :=
  let n := c.toNat
  if n < 0x80 then [n]
  else if n < 0x800 then [0xC0 ||| (n >>> 6), 0x80 ||| (n &&& 0x3F)]
  else if n < 0x10000 then
    [0xE0 ||| (n >>> 12), 0x80 ||| ((n >>> 6) &&& 0x3F), 0x80 ||| (n &&& 0x3F)]
  else
    [0xF0 ||| (n >>> 18), 0x80 ||| ((n >>> 12) &&& 0x3F), 0x80 ||| ((n >>> 6) &&& 0x3F),
     0x80 ||| (n &&& 0x3F)]

/-- Bytes of a string (Rust String::as_bytes, UTF-8). -/
def strBytes (s : String) : List Nat := s.data.flatMap utf8Char

/-- Model of Rust str::replace with a single-character pattern and a
single-character replacement string, as used by the id derivation code. -/
def replaceChar (a b : Char) (s : String) : String :=
  String.mk (s.data.map (fun c => if c = a then b else c))

/-- ASCII lowercasing of one character. -/
def lowerChar (c : Char) : Char :=
  if 65 ≤ c.toNat ∧ c.toNat ≤ 90 then Char.ofNat (c.toNat + 32) else c

/-- Model of Rust str::to_lowercase.  The code only applies it to
hyphenated hexadecimal UUID strings, which are pure ASCII, where Rust
lowercasing is exactly ASCII lowercasing. -/
def asciiLower (s : String) : String := String.mk (s.data.map lowerChar)

/-- Boolean substring test on character lists (Rust str::contains). -/
def seqIn (pat : List Char) : List Char → Bool
  | [] => pat.isEmpty
  | c :: rest => pat.isPrefixOf (c :: rest) || seqIn pat rest

/-! ## SHA-1 (the hash underlying version-5 UUIDs of the uuid crate) -/

/-- SHA-1 padding: append 0x80, zero bytes up to 56 mod 64, then the
bit length as 8 big-endian bytes. -/
def sha1Pad (msg : List Nat) : List Nat :=
  let len := msg.length
  let z := (119 - len % 64) % 64
  msg ++ 0x80 :: List.replicate z 0 ++
    [(len * 8) >>> 56 % 256, (len * 8) >>> 48 % 256, (len * 8) >>> 40 % 256,
     (len * 8) >>> 32 % 256, (len * 8) >>> 24 % 256, (len * 8) >>> 16 % 256,
     (len * 8) >>> 8 % 256, (len * 8) % 256]

/-- Big-endian 32-bit words of a byte list. -/
def toWords : List Nat → List Nat
  | b0 :: b1 :: b2 :: b3 :: rest =>
    ((b0 <<< 24) ||| (b1 <<< 16) ||| (b2 <<< 8) ||| b3) :: toWords rest
  | _ => []

/-- Message-schedule extension: append the given number of extra words. -/
def extendW : List Nat → Nat → List Nat
  | ws, 0 => ws
  | ws, n + 1 =>
    extendW (ws ++ [rotl 1 (ws.getD (ws.length - 3) 0 ^^^ ws.getD (ws.length - 8) 0 ^^^
      ws.getD (ws.length - 14) 0 ^^^ ws.getD (ws.length - 16) 0)]) n

/-- Round function of SHA-1. -/
def sha1F (i b c d : Nat) : Nat :=
  if i < 20 then (b &&& c) ||| ((M32 - 1 - b) &&& d)
  else if i < 40 then b ^^^ c ^^^ d
  else if i < 60 then (b &&& c) ||| (b &&& d) ||| (c &&& d)
  else b ^^^ c ^^^ d

/-- Round constants of SHA-1. -/
def sha1K (i : Nat) : Nat :=
  if i < 20 then 0x5A827999
  else if i < 40 then 0x6ED9EBA1
  else if i < 60 then 0x8F1BBCDC
  else 0xCA62C1D6

/-- Hash state: five 32-bit words. -/
abbrev St := Nat × Nat × Nat × Nat × Nat

/-- One SHA-1 round. -/
def sha1Round (w : List Nat) (st : St) (i : Nat) : St :=
  let a := st.1
  let b := st.2.1
  let c := st.2.2.1
  let d := st.2.2.2.1
  let e := st.2.2.2.2
  ((rotl 5 a + sha1F i b c d + e + sha1K i + w.getD i 0) % M32, a, rotl 30 b, c, d)

/-- Compression of one 64-byte block. -/
def sha1Block (h : St) (block : List Nat) : St :=
  let ws := extendW (toWords block) 64
  let st := (List.range 80).foldl (sha1Round ws) h
  ((h.1 + st.1) % M32, (h.2.1 + st.2.1) % M32, (h.2.2.1 + st.2.2.1) % M32,
   (h.2.2.2.1 + st.2.2.2.1) % M32, (h.2.2.2.2 + st.2.2.2.2) % M32)

/-- Split into 64-byte chunks; the first argument is recursion fuel
(any value at least the number of chunks, the callers pass the length). -/
def chunksF : Nat → List Nat → List (List Nat)
  | 0, _ => []
  | _, [] => []
  | n + 1, l => l.take 64 :: chunksF n (l.drop 64)

/-- Initial SHA-1 state. -/
def sha1Init : St := (0x67452301, 0xEFCDAB89, 0x98BADCFE, 0x10325476, 0xC3D2E1F0)

/-- Final state after hashing a message. -/
def sha1State (msg : List Nat) : St :=
  (chunksF (sha1Pad msg).length (sha1Pad msg)).foldl sha1Block sha1Init

/-- Big-endian digest bytes of a state. -/
def sha1Digest (st : St) : List Nat :=
  [st.1 >>> 24 % 256, st.1 >>> 16 % 256, st.1 >>> 8 % 256, st.1 % 256,
   st.2.1 >>> 24 % 256, st.2.1 >>> 16 % 256, st.2.1 >>> 8 % 256, st.2.1 % 256,
   st.2.2.1 >>> 24 % 256, st.2.2.1 >>> 16 % 256, st.2.2.1 >>> 8 % 256, st.2.2.1 % 256,
   st.2.2.2.1 >>> 24 % 256, st.2.2.2.1 >>> 16 % 256, st.2.2.2.1 >>> 8 % 256, st.2.2.2.1 % 256,
   st.2.2.2.2 >>> 24 % 256, st.2.2.2.2 >>> 16 % 256, st.2.2.2.2 >>> 8 % 256, st.2.2.2.2 % 256]

/-- SHA-1 of a byte list: 20 digest bytes. -/
def sha1 (msg : List Nat) : List Nat := sha1Digest (sha1State msg)

/-! ## Version-5 UUIDs (model of the uuid crate, RFC 4122)

Uuid::new_v5 hashes the 16 namespace bytes followed by the name bytes
with SHA-1, truncates to 16 bytes, and forces the version nibble to 5
and the RFC 4122 variant bits. -/

/-- The 16 bytes of a version-5 UUID over a namespace and name. -/
def uuidNameBytes (ns name : List Nat) : List Nat :=
  let h := (sha1 (ns ++ name)).take 16
  (h.set 6 ((h.getD 6 0 &&& 0x0f) ||| 0x50)).set 8 ((h.getD 8 0 &&& 0x3f) ||| 0x80)

/-- Upper-case hexadecimal digit. -/
def digitU (d : Nat) : Char := if d < 10 then Char.ofNat (48 + d) else Char.ofNat (55 + d)

/-- Lower-case hexadecimal digit. -/
def digitL (d : Nat) : Char := if d < 10 then Char.ofNat (48 + d) else Char.ofNat (87 + d)

/-- Two hex characters of one byte. -/
def byteHexW (dig : Nat → Char) (b : Nat) : List Char := [dig (b / 16), dig (b % 16)]

/-- Hex characters of a byte list. -/
def hexW (dig : Nat → Char) (l : List Nat) : List Char := l.flatMap (byteHexW dig)

/-- Hyphenated rendering of 16 UUID bytes (groups of 4-2-2-2-6 bytes). -/
def renderUuidW (dig : Nat → Char) (l : List Nat) : String :=
  String.mk (hexW dig (l.take 4) ++ '-' :: hexW dig ((l.drop 4).take 2) ++
    '-' :: hexW dig ((l.drop 6).take 2) ++ '-' :: hexW dig ((l.drop 8).take 2) ++
    '-' :: hexW dig (l.drop 10))

/-- Uuid::NAMESPACE_DNS. -/
def namespaceDNS : List Nat :=
  [0x6b, 0xa7, 0xb8, 0x10, 0x9d, 0xad, 0x11, 0xd1, 0x80, 0xb4, 0x00, 0xc0, 0x4f, 0xd4, 0x30, 0xc8]

/-- Uuid::NAMESPACE_URL. -/
def namespaceURL : List Nat :=
  [0x6b, 0xa7, 0xb8, 0x11, 0x9d, 0xad, 0x11, 0xd1, 0x80, 0xb4, 0x00, 0xc0, 0x4f, 0xd4, 0x30, 0xc8]

/-- Upper-case hyphenated v5 UUID of a name in a namespace
(Uuid::new_v5 followed by to_hyphenated().encode_upper). -/
def uuidV5Upper (ns : List Nat) (name : String) : String :=
  renderUuidW digitU (uuidNameBytes ns (strBytes name))

/-- Lower-case hyphenated v5 UUID of a name in a namespace
(Uuid::new_v5 followed by to_string, whose Display form is lower-case
hyphenated). -/
def uuidV5String (ns : List Nat) (name : String) : String :=
  renderUuidW digitL (uuidNameBytes ns (strBytes name))

/-! ## RPaths and the file manifest

A path is its list of forward-slash-separated components.  FileManifest
lives in src/tugger/src/file_resource.rs, which is not part of the
sources under verification; its grouping operation is modelled from the
spec below. -/

/-- A relative path: its list of components. -/
abbrev RPath := List String

/-- Display form of a path (forward-slash separated). -/
def pathDisplay : RPath → String
  | [] => ""
  | [x] => x
  | x :: xs => x ++ "/" ++ pathDisplay xs

/-- Rust Path::parent: none for the empty path, otherwise the path with
the last component removed (the parent of a single component is the
empty path). -/
def pathParent (p : RPath) : Option RPath :=
  if p = [] then none else some p.dropLast

/-- Directory key of a manifest entry: the containing directory, or
none for an entry directly in the root. -/
def fileDirKey (p : RPath) : Option RPath :=
  match pathParent p with
  | some d => if d = [] then none else some d
  | none => none

/-- Final component of a path (the file name). -/
def fileNameOf (p : RPath) : String := p.getLastD ""

/-- All directories implied by one manifest path: every nonempty proper
prefix of the path short of the file name itself. -/
def dirsOf (p : RPath) : List RPath :=
  (List.range (p.length - 1)).map (fun i => p.take (i + 1))

/-- All directories implied by a manifest, deduplicated. -/
def allDirs (m : List RPath) : List RPath := (m.flatMap dirsOf).dedup

/-- Comparison used to model the sorted iteration order of the BTreeMap
of directories. -/
def pathLeB (a b : RPath) : Prop := pathDisplay a ≤ pathDisplay b

instance : DecidableRel pathLeB :=
  fun a b => inferInstanceAs (Decidable (pathDisplay a ≤ pathDisplay b))

/-- Sorted list of all directories implied by the manifest. -/
def sortedDirs (m : List RPath) : List RPath := List.insertionSort pathLeB (allDirs m)

/-- Modelled from the spec: the directory keys of
FileManifest::entries_by_directory (file_resource.rs is not under the
verified sources).  Per the spec the grouping produces, for every
directory that appears — including intermediate directories with no
files of their own and a synthetic no-parent root group — one key; the
root key none comes first in the sorted map order. -/
def dirKeys (m : List RPath) : List (Option RPath) :=
  none :: (sortedDirs m).map some

/-- Modelled from the spec: the direct file entries of one directory
key — the file names of exactly the manifest entries whose containing
directory is that key, in sorted order. -/
def filesFor (m : List RPath) (k : Option RPath) : List String :=
  List.insertionSort (fun a b : String => a ≤ b)
    ((m.filter (fun p => decide (fileDirKey p = k))).map fileNameOf)

/-- Modelled from the spec: FileManifest::entries_by_directory, the
grouping of manifest entries by containing directory. -/
def entriesByDirectory (m : List RPath) : List (Option RPath × List String) :=
  (dirKeys m).map (fun k => (k, filesFor m k))

/-! ## Identifier derivation (wix.rs lines 63 to 122) -/

/-- Fixed UUID-derivation namespace string of wix.rs. -/
def GUID_NAMESPACE : String := "https://github.com/indygreg/PyOxidizer/tugger/wix"

/-- Compute the Id of a directory (wix.rs directory_to_id): the prefix,
a ".dir." segment, and the display form of the path with every slash
replaced by a dot and every hyphen by an underscore. -/
def directory_to_id (pfx : String) (path : RPath) : String :=
  pfx ++ ".dir." ++ replaceChar '-' '_' (replaceChar '/' '.' (pathDisplay path))

/-- Composite key string hashed for a component GUID. -/
def componentKey (pfx : String) (path : RPath) : String :=
  GUID_NAMESPACE ++ "/" ++ pfx ++ "/component/" ++ pathDisplay path

/-- UUID bytes of a component GUID. -/
def componentUuidBytes (pfx : String) (path : RPath) : List Nat :=
  uuidNameBytes namespaceURL (strBytes (componentKey pfx path))

/-- Compute the GUID of a component (wix.rs component_guid). -/
def component_guid (pfx : String) (path : RPath) : String :=
  uuidV5Upper namespaceURL (componentKey pfx path)

/-- Component id (wix.rs component_id). -/
def component_id (pfx : String) (path : RPath) : String :=
  pfx ++ ".component." ++ asciiLower (component_guid pfx path)

/-- Composite key string hashed for a file GUID (note: file name only). -/
def fileKey (pfx : String) (name : String) : String :=
  GUID_NAMESPACE ++ "/" ++ pfx ++ "/file/" ++ name

/-- File GUID (wix.rs file_guid), over the file name only. -/
def file_guid (pfx : String) (name : String) : String :=
  uuidV5Upper namespaceURL (fileKey pfx name)

/-- File id (wix.rs file_id): prefix, ".file.", and the lowercased GUID
with every hyphen replaced by an underscore. -/
def file_id (pfx : String) (name : String) : String :=
  pfx ++ ".file." ++ replaceChar '-' '_' (asciiLower (file_guid pfx name))

/-- Component group id (wix.rs component_group_id) over the display form
of a path (the root call passes the root directory id verbatim). -/
def component_group_id (pfx : String) (display : String) : String :=
  pfx ++ ".group." ++ replaceChar '-' '_' (replaceChar '/' '.' display)

/-! ## The fragment writer (wix.rs write_file_manifest_to_wix) -/

/-- One Component element together with its nested File element. -/
structure ComponentDecl where
  id : String
  guid : String
  fileId : String
  keyRPath : String
  source : String
deriving DecidableEq, Repr

/-- One Fragment element of the generated document: either a
DirectoryRef carrying child Directory declarations and Component
declarations, or a ComponentGroup carrying ComponentRef ids. -/
inductive Fragment where
  | directoryRef (dirId : String) (children : List (String × String)) (components : List ComponentDecl)
  | componentGroup (groupId : String) (memberIds : List String)
deriving DecidableEq, Repr

/-- Child Directory declarations of the fragment for one directory key
(wix.rs lines 173 to 208): iterate over all directory keys, skip the
root key, and keep a key either when the current directory is the root
and the candidate has no parent or an empty parent, or when the
candidate differs from the current directory, is component-prefixed by
it, and has exactly one component more. -/
def childDeclOf (pfx : String) (directory : Option RPath) (d : RPath) :
    Option (String × String) :=
  match directory with
  | none =>
    if pathParent d = none ∨ pathParent d = some [] then
      some (directory_to_id pfx d, pathDisplay d)
    else none
  | some dir =>
    if d ≠ dir ∧ dir <+: d ∧ dir.length = d.length - 1 then
      some (directory_to_id pfx d, fileNameOf d)
    else none

def childDecls (pfx : String) (keys : List (Option RPath)) (directory : Option RPath) :
    List (String × String) :=
  keys.filterMap (fun dOpt =>
    match dOpt with
    | none => none
    | some d => childDeclOf pfx directory d)

/-- Component declarations for the files directly in one directory
(wix.rs lines 210 to 242). -/
def componentDecls (pfx : String) (installPfx : String) (directory : Option RPath)
    (files : List String) : List ComponentDecl :=
  files.map (fun filename =>
    let relRPath : RPath :=
      match directory with
      | some d => d ++ [filename]
      | none => [filename]
    let src : String :=
      match directory with
      | some d => installPfx ++ "/" ++ pathDisplay d ++ "/" ++ filename
      | none => installPfx ++ "/" ++ filename
    { id := component_id pfx relRPath
      guid := component_guid pfx relRPath
      fileId := file_id pfx filename
      keyRPath := "yes"
      source := src })

/-- ComponentRef ids of the component group of one directory key
(wix.rs lines 262 to 277): every manifest entry whose path starts with
the directory, or every entry at the root key. -/
def groupMembers (pfx : String) (m : List RPath) (directory : Option RPath) : List String :=
  (m.filter (fun p =>
    match directory with
    | some base => decide (base <+: p)
    | none => true)).map (fun p => component_id pfx p)

/-- DirectoryRef id of the fragment for one key (root uses the root
directory id verbatim). -/
def dirRefIdFor (pfx : String) (rootDirectoryId : String) (k : Option RPath) : String :=
  match k with
  | some p => directory_to_id pfx p
  | none => rootDirectoryId

/-- ComponentGroup id of the fragment for one key (the root treats the
root directory id as a path). -/
def groupIdFor (pfx : String) (rootDirectoryId : String) (k : Option RPath) : String :=
  match k with
  | some p => component_group_id pfx (pathDisplay p)
  | none => component_group_id pfx rootDirectoryId

/-- Model of wix.rs write_file_manifest_to_wix: for every directory key
of the grouped manifest, in map order, one DirectoryRef fragment
followed by one ComponentGroup fragment. -/
def write_file_manifest_to_wix (m : List RPath) (installPfx : String)
    (rootDirectoryId : String) (idPfx : String) : List Fragment :=
  (entriesByDirectory m).flatMap (fun kv =>
    [Fragment.directoryRef (dirRefIdFor idPfx rootDirectoryId kv.1)
      (childDecls idPfx (dirKeys m) kv.1)
      (componentDecls idPfx installPfx kv.1 kv.2),
     Fragment.componentGroup (groupIdFor idPfx rootDirectoryId kv.1)
      (groupMembers idPfx m kv.1)])

/-! ## Architecture selection and builders (wix.rs lines 291 to 547) -/

/-- Architecture flag for candle (wix.rs target_triple_to_wix_arch):
x64 when the triple contains the substring x86_64, else x86. -/
def target_triple_to_wix_arch (triple : String) : String :=
  if seqIn "x86_64".data triple.data then "x64" else "x86"

/-- Builder state for .msi installers (wix.rs WiXInstallerBuilder).
BTreeMaps are modelled as association lists and the two FileManifest
fields as lists of paths; no claim depends on their contents. -/
structure WiXInstallerBuilder where
  target_triple : String
  install_files : List RPath
  preprocess_parameters : List (String × String)
  linker_variables : List (String × Option String)
  wxs_files : List RPath
deriving DecidableEq, Repr

/-- Upgrade code of the default wxs fragment (wix.rs lines 486 to 493):
v5 UUID in the DNS namespace over "tugger.installer." ++ name ++ "." ++
target triple, rendered by Uuid::to_string (lower-case hyphenated). -/
def WiXInstallerBuilder.upgrade_code (b : WiXInstallerBuilder) (name : String) : String :=
  uuidV5String namespaceDNS ("tugger.installer." ++ name ++ "." ++ b.target_triple)

/-- Builder state for bundle installers (wix.rs WiXBundleInstallerBuilder). -/
structure WiXBundleInstallerBuilder where
  name : String
  version : String
  manufacturer : String
  upgrade_code : Option String
  include_vc_redist_x86 : Bool
  include_vc_redist_x64 : Bool
  preprocess_parameters : List (String × String)
  linker_variables : List (String × Option String)
deriving DecidableEq, Repr

/-- Upgrade code of a bundle (wix.rs lines 535 to 547): the explicit
override when set, else the v5 UUID in the DNS namespace over
"tugger.bundle." ++ name.  Named upgrade_code_value because the Rust
method shares its name with the field. -/
def WiXBundleInstallerBuilder.upgrade_code_value (b : WiXBundleInstallerBuilder) : String :=
  match b.upgrade_code with
  | some code => code
  | none => uuidV5String namespaceDNS ("tugger.bundle." ++ b.name)

/-! ## Spec-side definitions (written from the words of the spec, to be
compared with the code-derived definitions above) -/

/-- Spec formula for the component GUID: the version-5 UUID in the URL
namespace over the composite key string
"https://github.com/indygreg/PyOxidizer/tugger/wix" + "/" + prefix +
"/component/" + path, rendered upper-case hyphenated. -/
def specComponentGuid (pfx pathStr : String) : String :=
  renderUuidW digitU (uuidNameBytes namespaceURL
    (strBytes ("https://github.com/indygreg/PyOxidizer/tugger/wix" ++ "/" ++ pfx ++
      "/component/" ++ pathStr)))

/-- Spec formula for the file GUID: same pattern with key segment
"file", applied to the file name only. -/
def specFileGuid (pfx name : String) : String :=
  renderUuidW digitU (uuidNameBytes namespaceURL
    (strBytes ("https://github.com/indygreg/PyOxidizer/tugger/wix" ++ "/" ++ pfx ++
      "/file/" ++ name)))

/-- File id exactly as claim C4 words it: prefix + ".file." +
lowercase(file_guid), with no further normalization. -/
def specFileIdClaim (pfx name : String) : String :=
  pfx ++ ".file." ++ asciiLower (file_guid pfx name)

/-- Directory id exactly as claim C5 words it: the concatenation of the
prefix and the normalized path, with no separating segment. -/
def specDirectoryIdClaim (pfx : String) (path : RPath) : String :=
  pfx ++ replaceChar '-' '_' (replaceChar '/' '.' (pathDisplay path))

/-- Membership test of a manifest entry in the subtree of a directory
key: under the root key every entry matches; under a directory key the
entries whose path is equal to or nested under the directory match. -/
def underKey (k : Option RPath) (p : RPath) : Bool :=
  match k with
  | some base => decide (base <+: p)
  | none => true

/-- Spec notion of an immediate child: for the root key a directory
with no parent segment, otherwise a path-prefix match whose component
count is exactly one greater. -/
def immediateChildB (k : Option RPath) (d : RPath) : Bool :=
  match k with
  | none => decide (d.dropLast = [])
  | some dir => decide (dir <+: d ∧ d.length = dir.length + 1)

/-- Child Directory name attribute: the full display form at the root,
else the last component. -/
def childNameFor (k : Option RPath) (d : RPath) : String :=
  match k with
  | none => pathDisplay d
  | some _ => fileNameOf d

/-- Modelled from the spec: the architecture field of a Rust target
triple is its first dash-separated component. -/
def tripleArchVal (t : String) : String :=
  String.mk (t.data.takeWhile (fun c => decide (c ≠ '-')))

/-- Modelled from the spec: the spec speaks of 64-bit triples without
defining them; a triple is 64-bit when its architecture field names a
64-bit CPU architecture. -/
def is64BitTriple (t : String) : Bool :=
  tripleArchVal t ∈
    ["x86_64", "aarch64", "powerpc64", "powerpc64le", "riscv64gc", "s390x",
     "sparc64", "mips64", "mips64el", "loongarch64"]

/-- Well-formed UUID byte lists: 16 bytes. -/
def UuidWf (l : List Nat) : Prop := l.length = 16 ∧ ∀ x ∈ l, x < 256

/-- Decode of one hexadecimal character, in either case (verification
helper for injectivity of the rendering). -/
def undigit (c : Char) : Nat :=
  if 97 ≤ c.toNat then c.toNat - 87 else if 65 ≤ c.toNat then c.toNat - 55 else c.toNat - 48

/-- Singleton path of n copies of the letter a (used for a counting
argument about GUID collisions). -/
def aPath (n : Nat) : RPath := [String.mk (List.replicate n 'a')]

/-- Component UUID bytes of aPath n, packed into a function into a
finite type. -/
def byteFin (pfx : String) (n : Nat) : Fin 16 → Fin 256 :=
  fun i => ⟨(componentUuidBytes pfx (aPath n)).getD i 0 % 256, Nat.mod_lt _ (by norm_num)⟩

/-! ## Well-formedness of digests and UUID bytes -/

theorem sha1_length (msg : List Nat) : (sha1 msg).length = 20 := rfl

theorem sha1_lt (msg : List Nat) : ∀ x ∈ sha1 msg, x < 256 := by
  intro x hx
  simp only [sha1, sha1Digest, List.mem_cons, List.not_mem_nil, or_false] at hx
  rcases hx with rfl | rfl | rfl | rfl | rfl | rfl | rfl | rfl | rfl | rfl | rfl | rfl | rfl |
    rfl | rfl | rfl | rfl | rfl | rfl | rfl <;>
    exact Nat.mod_lt _ (by norm_num)

theorem or_byte_lt {a b : Nat} (ha : a < 256) (hb : b < 256) : a ||| b < 256 := by
  have h : (256 : Nat) = 2 ^ 8 := by norm_num
  rw [h] at ha hb ⊢
  exact Nat.or_lt_two_pow ha hb

theorem uuidNameBytes_length (ns nm : List Nat) : (uuidNameBytes ns nm).length = 16 := by
  simp [uuidNameBytes, sha1_length]

theorem uuidNameBytes_lt (ns nm : List Nat) : ∀ x ∈ uuidNameBytes ns nm, x < 256 := by
  intro x hx
  unfold uuidNameBytes at hx
  rcases List.mem_or_eq_of_mem_set hx with hx | rfl
  · rcases List.mem_or_eq_of_mem_set hx with hx | rfl
    · exact sha1_lt _ _ (List.mem_of_mem_take hx)
    · exact or_byte_lt (lt_of_le_of_lt Nat.and_le_right (by norm_num)) (by norm_num)
  · exact or_byte_lt (lt_of_le_of_lt Nat.and_le_right (by norm_num)) (by norm_num)

theorem componentUuidBytes_wf (pfx : String) (p : RPath) : UuidWf (componentUuidBytes pfx p) :=
  ⟨uuidNameBytes_length _ _, uuidNameBytes_lt _ _⟩

theorem component_guid_eq_renderU (pfx : String) (p : RPath) :
    component_guid pfx p = renderUuidW digitU (componentUuidBytes pfx p) := rfl

/-! ## Injectivity of the hex rendering -/

set_option maxRecDepth 2000 in
theorem undigit_digitU :
    ∀ b : Fin 256, undigit (digitU (b.val / 16)) * 16 + undigit (digitU (b.val % 16)) = b.val := by
  decide

set_option maxRecDepth 2000 in
theorem undigit_digitL :
    ∀ b : Fin 256, undigit (digitL (b.val / 16)) * 16 + undigit (digitL (b.val % 16)) = b.val := by
  decide

theorem byteHexW_inj {dig : Nat → Char}
    (hd : ∀ b : Fin 256, undigit (dig (b.val / 16)) * 16 + undigit (dig (b.val % 16)) = b.val)
    {a b : Nat} (ha : a < 256) (hb : b < 256) (h : byteHexW dig a = byteHexW dig b) : a = b := by
  simp only [byteHexW, List.cons.injEq, and_true] at h
  obtain ⟨h1, h2⟩ := h
  have hA : undigit (dig (a / 16)) * 16 + undigit (dig (a % 16)) = a := hd ⟨a, ha⟩
  have hB : undigit (dig (b / 16)) * 16 + undigit (dig (b % 16)) = b := hd ⟨b, hb⟩
  rw [← hA, ← hB, h1, h2]

theorem hexW_inj {dig : Nat → Char}
    (hd : ∀ b : Fin 256, undigit (dig (b.val / 16)) * 16 + undigit (dig (b.val % 16)) = b.val) :
    ∀ l₁ l₂ : List Nat, (∀ x ∈ l₁, x < 256) → (∀ x ∈ l₂, x < 256) →
      hexW dig l₁ = hexW dig l₂ → l₁ = l₂ := by
  intro l₁
  induction l₁ with
  | nil =>
    intro l₂ _ _ h
    cases l₂ with
    | nil => rfl
    | cons b t => simp [hexW, byteHexW] at h
  | cons a t ih =>
    intro l₂ h₁ h₂ h
    cases l₂ with
    | nil => simp [hexW, byteHexW] at h
    | cons b t₂ =>
      simp only [hexW, List.flatMap_cons, byteHexW, List.cons_append, List.nil_append,
        List.cons.injEq] at h
      obtain ⟨e1, e2, e3⟩ := h
      have ha : a < 256 := h₁ a (by simp)
      have hb : b < 256 := h₂ b (by simp)
      have hab : a = b := byteHexW_inj hd ha hb (by simp [byteHexW, e1, e2])
      have ht : t = t₂ :=
        ih t₂ (fun x hx => h₁ x (by simp [hx])) (fun x hx => h₂ x (by simp [hx])) e3
      rw [hab, ht]

theorem hexW_length (dig : Nat → Char) (l : List Nat) : (hexW dig l).length = 2 * l.length := by
  induction l with
  | nil => rfl
  | cons a t ih =>
    simp only [hexW, List.flatMap_cons, List.length_append, List.length_cons] at ih ⊢
    simp only [byteHexW, List.length_cons, List.length_nil]
    omega

theorem split16 (l : List Nat) :
    l = l.take 4 ++ ((l.drop 4).take 2 ++ ((l.drop 6).take 2 ++ ((l.drop 8).take 2 ++ l.drop 10))) := by
  have h6 : (l.drop 4).drop 2 = l.drop 6 := by rw [List.drop_drop]
  have h8 : (l.drop 6).drop 2 = l.drop 8 := by rw [List.drop_drop]
  have h10 : (l.drop 8).drop 2 = l.drop 10 := by rw [List.drop_drop]
  calc l = l.take 4 ++ l.drop 4 := (List.take_append_drop 4 l).symm
    _ = l.take 4 ++ ((l.drop 4).take 2 ++ (l.drop 4).drop 2) := by
        rw [List.take_append_drop 2 (l.drop 4)]
    _ = l.take 4 ++ ((l.drop 4).take 2 ++ (l.drop 6)) := by rw [h6]
    _ = l.take 4 ++ ((l.drop 4).take 2 ++ ((l.drop 6).take 2 ++ (l.drop 6).drop 2)) := by
        rw [List.take_append_drop 2 (l.drop 6)]
    _ = l.take 4 ++ ((l.drop 4).take 2 ++ ((l.drop 6).take 2 ++ (l.drop 8))) := by rw [h8]
    _ = l.take 4 ++ ((l.drop 4).take 2 ++ ((l.drop 6).take 2 ++ ((l.drop 8).take 2 ++ (l.drop 8).drop 2))) := by
        rw [List.take_append_drop 2 (l.drop 8)]
    _ = l.take 4 ++ ((l.drop 4).take 2 ++ ((l.drop 6).take 2 ++ ((l.drop 8).take 2 ++ l.drop 10))) := by
        rw [h10]

theorem renderUuidW_inj {dig : Nat → Char}
    (hd : ∀ b : Fin 256, undigit (dig (b.val / 16)) * 16 + undigit (dig (b.val % 16)) = b.val)
    {l₁ l₂ : List Nat} (w₁ : UuidWf l₁) (w₂ : UuidWf l₂)
    (h : renderUuidW dig l₁ = renderUuidW dig l₂) : l₁ = l₂ := by
  obtain ⟨len₁, lt₁⟩ := w₁
  obtain ⟨len₂, lt₂⟩ := w₂
  have hdata : hexW dig (l₁.take 4) ++ '-' :: hexW dig ((l₁.drop 4).take 2) ++
      '-' :: hexW dig ((l₁.drop 6).take 2) ++ '-' :: hexW dig ((l₁.drop 8).take 2) ++
      '-' :: hexW dig (l₁.drop 10) =
      hexW dig (l₂.take 4) ++ '-' :: hexW dig ((l₂.drop 4).take 2) ++
      '-' :: hexW dig ((l₂.drop 6).take 2) ++ '-' :: hexW dig ((l₂.drop 8).take 2) ++
      '-' :: hexW dig (l₂.drop 10) := congrArg String.data h
  obtain ⟨h4, hE⟩ := List.append_inj' hdata
    (by simp [hexW_length, List.length_drop, len₁, len₂])
  obtain ⟨h3, hD⟩ := List.append_inj' h4
    (by simp [hexW_length, List.length_take, List.length_drop, len₁, len₂])
  obtain ⟨h2, hC⟩ := List.append_inj' h3
    (by simp [hexW_length, List.length_take, List.length_drop, len₁, len₂])
  obtain ⟨hA, hB⟩ := List.append_inj' h2
    (by simp [hexW_length, List.length_take, List.length_drop, len₁, len₂])
  simp only [List.cons.injEq, true_and] at hB hC hD hE
  have tA : l₁.take 4 = l₂.take 4 :=
    hexW_inj hd _ _ (fun x hx => lt₁ x (List.mem_of_mem_take hx))
      (fun x hx => lt₂ x (List.mem_of_mem_take hx)) hA
  have tB : (l₁.drop 4).take 2 = (l₂.drop 4).take 2 :=
    hexW_inj hd _ _ (fun x hx => lt₁ x (List.mem_of_mem_drop (List.mem_of_mem_take hx)))
      (fun x hx => lt₂ x (List.mem_of_mem_drop (List.mem_of_mem_take hx))) hB
  have tC : (l₁.drop 6).take 2 = (l₂.drop 6).take 2 :=
    hexW_inj hd _ _ (fun x hx => lt₁ x (List.mem_of_mem_drop (List.mem_of_mem_take hx)))
      (fun x hx => lt₂ x (List.mem_of_mem_drop (List.mem_of_mem_take hx))) hC
  have tD : (l₁.drop 8).take 2 = (l₂.drop 8).take 2 :=
    hexW_inj hd _ _ (fun x hx => lt₁ x (List.mem_of_mem_drop (List.mem_of_mem_take hx)))
      (fun x hx => lt₂ x (List.mem_of_mem_drop (List.mem_of_mem_take hx))) hD
  have tE : l₁.drop 10 = l₂.drop 10 :=
    hexW_inj hd _ _ (fun x hx => lt₁ x (List.mem_of_mem_drop hx))
      (fun x hx => lt₂ x (List.mem_of_mem_drop hx)) hE
  rw [split16 l₁, split16 l₂, tA, tB, tC, tD, tE]

/-! ## Lowercasing commutes with the upper-case rendering -/

set_option maxRecDepth 2000 in
theorem map_lower_byteHexU :
    ∀ b : Fin 256, (byteHexW digitU b.val).map lowerChar = byteHexW digitL b.val := by
  decide

theorem map_lower_hexU (l : List Nat) (hl : ∀ x ∈ l, x < 256) :
    (hexW digitU l).map lowerChar = hexW digitL l := by
  induction l with
  | nil => rfl
  | cons a t ih =>
    have ha : a < 256 := hl a (by simp)
    have hstep : (byteHexW digitU a).map lowerChar = byteHexW digitL a := map_lower_byteHexU ⟨a, ha⟩
    simp only [hexW, List.flatMap_cons, List.map_append]
    rw [hstep]
    have := ih (fun x hx => hl x (by simp [hx]))
    simp only [hexW] at this
    rw [this]

theorem asciiLower_renderU (l : List Nat) (hl : ∀ x ∈ l, x < 256) :
    asciiLower (renderUuidW digitU l) = renderUuidW digitL l := by
  show String.mk ((hexW digitU (l.take 4) ++ '-' :: hexW digitU ((l.drop 4).take 2) ++
    '-' :: hexW digitU ((l.drop 6).take 2) ++ '-' :: hexW digitU ((l.drop 8).take 2) ++
    '-' :: hexW digitU (l.drop 10)).map lowerChar) = _
  apply congrArg String.mk
  have hdash : lowerChar '-' = '-' := by decide
  simp only [List.map_append, List.map_cons, hdash]
  rw [map_lower_hexU _ (fun x hx => hl x (List.mem_of_mem_take hx)),
    map_lower_hexU _ (fun x hx => hl x (List.mem_of_mem_drop (List.mem_of_mem_take hx))),
    map_lower_hexU _ (fun x hx => hl x (List.mem_of_mem_drop (List.mem_of_mem_take hx))),
    map_lower_hexU _ (fun x hx => hl x (List.mem_of_mem_drop (List.mem_of_mem_take hx))),
    map_lower_hexU _ (fun x hx => hl x (List.mem_of_mem_drop hx))]

/-! ## Injectivity facts about the derived identifier strings -/

theorem string_append_left_inj (c : String) : Function.Injective (fun s => c ++ s) := by
  intro a b h
  apply String.ext
  have h2 := congrArg String.data h
  simp only [String.data_append] at h2
  exact List.append_cancel_left h2

theorem component_id_eq_renderL (pfx : String) (p : RPath) :
    component_id pfx p = pfx ++ ".component." ++ renderUuidW digitL (componentUuidBytes pfx p) := by
  unfold component_id
  rw [component_guid_eq_renderU,
    asciiLower_renderU (componentUuidBytes pfx p) (uuidNameBytes_lt _ _)]

theorem aPath_inj : Function.Injective aPath := by
  intro m n h
  simp only [aPath, List.cons.injEq, and_true] at h
  have h2 : List.replicate m 'a' = List.replicate n 'a' := congrArg String.data h
  have h3 := congrArg List.length h2
  simpa using h3

/-! ## Lemmas about the fragment writer -/

theorem groupMembers_eq (pfx : String) (m : List RPath) (k : Option RPath) :
    groupMembers pfx m k = (m.filter (underKey k)).map (component_id pfx) := by
  cases k <;> rfl

theorem filterMap_eq_map_filter {α β : Type _} (f : α → Option β) (p : α → Bool) (g : α → β)
    (hf : ∀ a, f a = if p a then some (g a) else none) :
    ∀ l : List α, l.filterMap f = (l.filter p).map g := by
  intro l
  induction l with
  | nil => rfl
  | cons a t ih =>
    cases hpa : p a with
    | true =>
      have hfa : f a = some (g a) := by rw [hf a, hpa]; rfl
      simp [List.filterMap_cons, List.filter_cons, hfa, hpa, ih]
    | false =>
      have hfa : f a = none := by rw [hf a, hpa]; rfl
      simp [List.filterMap_cons, List.filter_cons, hfa, hpa, ih]

theorem childCond_root_iff (d : RPath) :
    (pathParent d = none ∨ pathParent d = some []) ↔ immediateChildB none d = true := by
  unfold pathParent immediateChildB
  by_cases hd : d = []
  · subst hd; simp
  · simp [hd]

theorem childCond_sub_iff (dir d : RPath) :
    (d ≠ dir ∧ dir <+: d ∧ dir.length = d.length - 1) ↔ immediateChildB (some dir) d = true := by
  unfold immediateChildB
  simp only [decide_eq_true_eq]
  constructor
  · rintro ⟨hne, hpre, hlen⟩
    refine ⟨hpre, ?_⟩
    have hle := hpre.length_le
    have hne2 : dir.length ≠ d.length := fun he => hne (hpre.eq_of_length he).symm
    omega
  · rintro ⟨hpre, hlen⟩
    refine ⟨?_, hpre, by omega⟩
    intro he
    rw [he] at hlen
    omega

theorem childDecls_eq_spec (pfx : String) (m : List RPath) (k : Option RPath) :
    childDecls pfx (dirKeys m) k =
      ((sortedDirs m).filter (immediateChildB k)).map
        (fun d => (directory_to_id pfx d, childNameFor k d)) := by
  have hstep : childDecls pfx (dirKeys m) k =
      (sortedDirs m).filterMap (childDeclOf pfx k) := by
    unfold childDecls dirKeys
    rw [List.filterMap_cons]
    dsimp only
    rw [List.filterMap_map]
    exact List.filterMap_congr (fun a _ => rfl)
  rw [hstep]
  apply filterMap_eq_map_filter
  intro d
  cases k with
  | none =>
    unfold childDeclOf
    exact if_congr (childCond_root_iff d) rfl rfl
  | some dir =>
    unfold childDeclOf
    exact if_congr (childCond_sub_iff dir d) rfl rfl

theorem seqIn_iff (pat : List Char) : ∀ l : List Char, seqIn pat l = true ↔ pat <:+: l := by
  intro l
  induction l with
  | nil => simp [seqIn, List.isEmpty_iff, List.infix_nil]
  | cons c t ih =>
    simp [seqIn, Bool.or_eq_true, List.isPrefixOf_iff_prefix, ih, List.infix_cons_iff]

/-! ## Claim theorems -/

/-- C1: for every prefix and relative path, component_guid is the
version-5 (SHA-1, name-based) UUID in the URL namespace over the
composite key "https://github.com/indygreg/PyOxidizer/tugger/wix" + "/"
+ prefix + "/component/" + path, rendered upper-case hyphenated. -/
theorem c1_component_guid_spec (pfx : String) (p : RPath) :
    component_guid pfx p = specComponentGuid pfx (pathDisplay p) := rfl

set_option maxRecDepth 100000 in
/-- C4 counterexample: file_id does not follow the component_id pattern
verbatim; after lowercasing the GUID it additionally replaces every
hyphen with an underscore, so it differs from prefix + ".file." +
lowercase(file_guid). -/
theorem c4_counterexample : file_id "p" "f" ≠ specFileIdClaim "p" "f" := by decide

/-- C4 (amended): file_guid is the version-5 UUID over key segment
"file" applied to the file name only, and file_id is prefix + ".file."
+ the lowercased file_guid with every hyphen replaced by an
underscore. -/
theorem c4_file_id_formula (pfx name : String) :
    file_guid pfx name = specFileGuid pfx name
      ∧ file_id pfx name =
          pfx ++ ".file." ++ replaceChar '-' '_' (asciiLower (file_guid pfx name)) :=
  ⟨rfl, rfl⟩

/-- C5 counterexample: directory_to_id is not the bare concatenation of
the prefix and the normalized path; it inserts a ".dir." segment
between them. -/
theorem c5_counterexample : directory_to_id "p" ["a"] ≠ specDirectoryIdClaim "p" ["a"] := by
  decide

/-- C5 (amended): directory_to_id is the prefix, a ".dir." segment, and
the display form of the path with every slash replaced by a dot and
every hyphen by an underscore. -/
theorem c5_directory_id_formula (pfx : String) (p : RPath) :
    directory_to_id pfx p =
      pfx ++ ".dir." ++ replaceChar '-' '_' (replaceChar '/' '.' (pathDisplay p)) := rfl

set_option maxRecDepth 4000 in
/-- C6 counterexample: aarch64-pc-windows-msvc is a 64-bit target
triple, yet the architecture flag computed for it is the 32-bit
token. -/
theorem c6_counterexample :
    is64BitTriple "aarch64-pc-windows-msvc" = true
      ∧ target_triple_to_wix_arch "aarch64-pc-windows-msvc" = "x86" := by
  constructor
  · decide
  · decide

/-- C6 (amended): the architecture flag is the 64-bit token exactly for
triples containing the substring x86_64, and the 32-bit token for every
other triple, including other 64-bit triples such as aarch64 ones. -/
theorem c6_arch_selection (t : String) :
    (target_triple_to_wix_arch t = "x64" ↔ "x86_64".data <:+: t.data)
      ∧ (target_triple_to_wix_arch t = "x86" ↔ ¬ "x86_64".data <:+: t.data) := by
  have hne : ("x64" : String) ≠ "x86" := by decide
  unfold target_triple_to_wix_arch
  by_cases h : seqIn "x86_64".data t.data = true
  · have hi := (seqIn_iff _ _).1 h
    rw [if_pos h]
    exact ⟨⟨fun _ => hi, fun _ => rfl⟩, ⟨fun he => absurd he hne, fun hni => absurd hi hni⟩⟩
  · have hi : ¬ "x86_64".data <:+: t.data := fun hc => h ((seqIn_iff _ _).2 hc)
    rw [if_neg h]
    exact ⟨⟨fun he => absurd he (Ne.symm hne), fun hinf => absurd hinf hi⟩,
      ⟨fun _ => hi, fun _ => rfl⟩⟩

/-- C7: compiling an empty manifest yields a document holding exactly
the root DirectoryRef fragment with no child-directory and no component
declarations, and the root ComponentGroup fragment with no member
references. -/
theorem c7_empty_manifest (ip rid pfx : String) :
    write_file_manifest_to_wix [] ip rid pfx =
      [Fragment.directoryRef rid [] [],
       Fragment.componentGroup (component_group_id pfx rid) []] := rfl

/-- C9: the manifest compiler and every identifier derivation are
deterministic: on equal manifests, install prefixes, root directory ids
and id prefixes the generated documents are equal, and the derivation
functions agree on equal inputs (the embedding is a pure function of
its arguments). -/
theorem c9_determinism (m₁ m₂ : List RPath) (ip₁ ip₂ rid₁ rid₂ pfx₁ pfx₂ : String)
    (p : RPath) (s : String) (hm : m₁ = m₂) (hip : ip₁ = ip₂) (hrid : rid₁ = rid₂)
    (hpfx : pfx₁ = pfx₂) :
    write_file_manifest_to_wix m₁ ip₁ rid₁ pfx₁ = write_file_manifest_to_wix m₂ ip₂ rid₂ pfx₂
      ∧ directory_to_id pfx₁ p = directory_to_id pfx₂ p
      ∧ component_guid pfx₁ p = component_guid pfx₂ p
      ∧ component_id pfx₁ p = component_id pfx₂ p
      ∧ file_guid pfx₁ s = file_guid pfx₂ s
      ∧ file_id pfx₁ s = file_id pfx₂ s
      ∧ component_group_id pfx₁ s = component_group_id pfx₂ s := by
  subst hm hip hrid hpfx
  exact ⟨rfl, rfl, rfl, rfl, rfl, rfl, rfl⟩

/-- C9 witness at concrete inputs. -/
theorem c9_determinism_witness :
    write_file_manifest_to_wix [["a"]] "i" "R" "p" = write_file_manifest_to_wix [["a"]] "i" "R" "p"
      ∧ directory_to_id "p" ["a"] = directory_to_id "p" ["a"]
      ∧ component_guid "p" ["a"] = component_guid "p" ["a"]
      ∧ component_id "p" ["a"] = component_id "p" ["a"]
      ∧ file_guid "p" "a" = file_guid "p" "a"
      ∧ file_id "p" "a" = file_id "p" "a"
      ∧ component_group_id "p" "a" = component_group_id "p" "a" :=
  c9_determinism [["a"]] [["a"]] "i" "i" "R" "R" "p" "p" ["a"] "a" rfl rfl rfl rfl

/-- C2: for every directory key emitted by the compiler, the component
group fragment for that key references by component id exactly the
manifest entries whose path is equal to or nested under the key, each
exactly once and no others; for the root key this is every file of the
manifest exactly once. -/
theorem c2_group_completeness (m : List RPath) (ip rid pfx : String) (hnd : m.Nodup) :
    ∀ k ∈ dirKeys m,
      Fragment.componentGroup (groupIdFor pfx rid k)
          ((m.filter (underKey k)).map (component_id pfx)) ∈
          write_file_manifest_to_wix m ip rid pfx
        ∧ (m.filter (underKey k)).Nodup
        ∧ m.filter (underKey none) = m := by
  intro k hk
  refine ⟨?_, hnd.filter _, ?_⟩
  · rw [← groupMembers_eq]
    unfold write_file_manifest_to_wix entriesByDirectory
    refine List.mem_flatMap.2 ⟨(k, filesFor m k), List.mem_map_of_mem _ hk, ?_⟩
    simp
  · exact List.filter_eq_self.2 (fun a _ => rfl)

set_option maxRecDepth 10000 in
/-- C2 witness at a concrete manifest and directory key. -/
theorem c2_group_completeness_witness :
    (Fragment.componentGroup (groupIdFor "p" "ROOT" (some ["d0"]))
        (([["a.txt"], ["d0", "b.txt"]].filter (underKey (some ["d0"]))).map (component_id "p")) ∈
        write_file_manifest_to_wix [["a.txt"], ["d0", "b.txt"]] "ip" "ROOT" "p")
      ∧ ([["a.txt"], ["d0", "b.txt"]].filter (underKey (some ["d0"]))).Nodup
      ∧ [["a.txt"], ["d0", "b.txt"]].filter (underKey none) = [["a.txt"], ["d0", "b.txt"]] :=
  c2_group_completeness [["a.txt"], ["d0", "b.txt"]] "ip" "ROOT" "p" (by decide) (some ["d0"])
    (by decide)

/-- C3: the fragment emitted for a directory key declares one child
Directory entry exactly for each emitted directory that is an immediate
child of that key: a path-prefix match whose component count is exactly
one greater, and at the root exactly the directories with no parent
segment. -/
theorem c3_child_directories (m : List RPath) (ip rid pfx : String) :
    ∀ k ∈ dirKeys m,
      Fragment.directoryRef (dirRefIdFor pfx rid k) (childDecls pfx (dirKeys m) k)
          (componentDecls pfx ip k (filesFor m k)) ∈ write_file_manifest_to_wix m ip rid pfx
        ∧ childDecls pfx (dirKeys m) k =
            ((sortedDirs m).filter (immediateChildB k)).map
              (fun d => (directory_to_id pfx d, childNameFor k d)) := by
  intro k hk
  refine ⟨?_, childDecls_eq_spec pfx m k⟩
  unfold write_file_manifest_to_wix entriesByDirectory
  refine List.mem_flatMap.2 ⟨(k, filesFor m k), List.mem_map_of_mem _ hk, ?_⟩
  simp

set_option maxRecDepth 10000 in
/-- C3 witness at a concrete manifest and the root key. -/
theorem c3_child_directories_witness :
    (Fragment.directoryRef (dirRefIdFor "p" "ROOT" none)
        (childDecls "p" (dirKeys [["d0", "a.txt"]]) none)
        (componentDecls "p" "ip" none (filesFor [["d0", "a.txt"]] none)) ∈
        write_file_manifest_to_wix [["d0", "a.txt"]] "ip" "ROOT" "p")
      ∧ childDecls "p" (dirKeys [["d0", "a.txt"]]) none =
          ((sortedDirs [["d0", "a.txt"]]).filter (immediateChildB none)).map
            (fun d => (directory_to_id "p" d, childNameFor none d)) :=
  c3_child_directories [["d0", "a.txt"]] "ip" "ROOT" "p" none (by decide)

/-- C8 counterexample: unconditional pairwise distinctness cannot hold:
the rendered GUIDs are determined by 16 bytes, a finite set, while the
set of file paths is infinite, so by counting some manifest of two
distinct paths has a colliding component GUID and component id
(classical pigeonhole; no explicit collision is exhibited). -/
theorem c8_counterexample :
    ¬ ∀ (pfx : String) (m : List RPath), m.Nodup →
        ((m.map (component_guid pfx)).Nodup ∧ (m.map (component_id pfx)).Nodup) := by
  intro h
  obtain ⟨m, n, hmn, heq⟩ := Finite.exists_ne_map_eq_of_infinite (byteFin "p")
  have h16m : (componentUuidBytes "p" (aPath m)).length = 16 := uuidNameBytes_length _ _
  have h16n : (componentUuidBytes "p" (aPath n)).length = 16 := uuidNameBytes_length _ _
  have hbytes : componentUuidBytes "p" (aPath m) = componentUuidBytes "p" (aPath n) := by
    apply List.ext_getElem (by rw [h16m, h16n])
    intro i hi₁ hi₂
    have hi : i < 16 := by rw [h16m] at hi₁; exact hi₁
    have hv := congrArg Fin.val (congrFun heq ⟨i, hi⟩)
    simp only [byteFin] at hv
    rw [List.getD_eq_getElem _ _ hi₁, List.getD_eq_getElem _ _ hi₂] at hv
    rwa [Nat.mod_eq_of_lt ((componentUuidBytes_wf "p" (aPath m)).2 _ (List.getElem_mem hi₁)),
      Nat.mod_eq_of_lt ((componentUuidBytes_wf "p" (aPath n)).2 _ (List.getElem_mem hi₂))] at hv
  have hg : component_guid "p" (aPath m) = component_guid "p" (aPath n) := by
    rw [component_guid_eq_renderU, component_guid_eq_renderU, hbytes]
  have hpne : aPath m ≠ aPath n := fun hc => hmn (aPath_inj hc)
  have hnd : ([aPath m, aPath n] : List RPath).Nodup := by
    refine List.nodup_cons.2 ⟨?_, List.nodup_singleton _⟩
    simpa using hpne
  have hcontra := (h "p" [aPath m, aPath n] hnd).1
  rw [List.map_cons, List.map_cons, List.map_nil] at hcontra
  exact (List.nodup_cons.1 hcontra).1 (by simp [hg])

/-- C8 (amended): for a fixed prefix and pairwise distinct displayed
paths the hashed composite key strings are pairwise distinct, and
whenever the derived 16-byte UUID values are pairwise distinct (that
is, absent a SHA-1 collision on those keys) the component GUID strings
and the component ids are pairwise distinct as well; unconditional
distinctness is impossible because the GUID space is finite. -/
theorem c8_distinct_ids (pfx : String) (m : List RPath) (hd : (m.map pathDisplay).Nodup) :
    (m.map (componentKey pfx)).Nodup
      ∧ ((m.map (componentUuidBytes pfx)).Nodup →
          (m.map (component_guid pfx)).Nodup ∧ (m.map (component_id pfx)).Nodup) := by
  constructor
  · have hmm : m.map (componentKey pfx) =
        (m.map pathDisplay).map
          (fun s => GUID_NAMESPACE ++ "/" ++ pfx ++ "/component/" ++ s) := by
      rw [List.map_map]
      rfl
    rw [hmm]
    exact hd.map (string_append_left_inj _)
  · intro hb
    constructor
    · have hmm : m.map (component_guid pfx) =
          (m.map (componentUuidBytes pfx)).map (renderUuidW digitU) := by
        rw [List.map_map]
        rfl
      rw [hmm]
      refine List.Nodup.map_on ?_ hb
      intro x hx y hy hxy
      obtain ⟨p, hp, rfl⟩ := List.mem_map.1 hx
      obtain ⟨q, hq, rfl⟩ := List.mem_map.1 hy
      exact renderUuidW_inj undigit_digitU (componentUuidBytes_wf pfx p)
        (componentUuidBytes_wf pfx q) hxy
    · have hmm : m.map (component_id pfx) =
          (m.map (componentUuidBytes pfx)).map
            (fun b => pfx ++ ".component." ++ renderUuidW digitL b) := by
        rw [List.map_map]
        exact List.map_congr_left (fun p _ => component_id_eq_renderL pfx p)
      rw [hmm]
      refine List.Nodup.map_on ?_ hb
      intro x hx y hy hxy
      obtain ⟨p, hp, rfl⟩ := List.mem_map.1 hx
      obtain ⟨q, hq, rfl⟩ := List.mem_map.1 hy
      have h2 : renderUuidW digitL (componentUuidBytes pfx p) =
          renderUuidW digitL (componentUuidBytes pfx q) :=
        string_append_left_inj (pfx ++ ".component.") hxy
      exact renderUuidW_inj undigit_digitL (componentUuidBytes_wf pfx p)
        (componentUuidBytes_wf pfx q) h2

set_option maxRecDepth 100000 in
/-- C8 witness at a concrete two-entry manifest. -/
theorem c8_distinct_ids_witness :
    (([["a"], ["b"]] : List RPath).map (componentKey "p")).Nodup
      ∧ (([["a"], ["b"]] : List RPath).map (component_guid "p")).Nodup
      ∧ (([["a"], ["b"]] : List RPath).map (component_id "p")).Nodup := by
  have h := c8_distinct_ids "p" [["a"], ["b"]] (by decide)
  have hb : (([["a"], ["b"]] : List RPath).map (componentUuidBytes "p")).Nodup := by decide
  exact ⟨h.1, (h.2 hb).1, (h.2 hb).2⟩

set_option maxRecDepth 100000 in
/-- C10: the installer upgrade code is the DNS-namespace version-5 UUID
over "tugger.installer." ++ name ++ "." ++ target triple, lower-case
hyphenated, and genuinely depends on the triple; the derived bundle
upgrade code is the DNS-namespace version-5 UUID over "tugger.bundle."
++ name only, independent of version and manufacturer. -/
theorem c10_upgrade_codes :
    (∀ (b : WiXInstallerBuilder) (name : String),
        b.upgrade_code name =
          uuidV5String namespaceDNS ("tugger.installer." ++ name ++ "." ++ b.target_triple))
      ∧ WiXInstallerBuilder.upgrade_code ⟨"x86_64-pc-windows-msvc", [], [], [], []⟩ "app" ≠
          WiXInstallerBuilder.upgrade_code ⟨"i686-pc-windows-msvc", [], [], [], []⟩ "app"
      ∧ (∀ b : WiXBundleInstallerBuilder, b.upgrade_code = none →
          b.upgrade_code_value = uuidV5String namespaceDNS ("tugger.bundle." ++ b.name))
      ∧ (∀ (n v₁ v₂ mf₁ mf₂ : String) (x₁ y₁ x₂ y₂ : Bool)
          (pp₁ pp₂ : List (String × String)) (vv₁ vv₂ : List (String × Option String)),
          WiXBundleInstallerBuilder.upgrade_code_value ⟨n, v₁, mf₁, none, x₁, y₁, pp₁, vv₁⟩ =
            WiXBundleInstallerBuilder.upgrade_code_value ⟨n, v₂, mf₂, none, x₂, y₂, pp₂, vv₂⟩) := by
  refine ⟨fun b name => rfl, by decide, fun b hb => ?_,
    fun n v₁ v₂ mf₁ mf₂ x₁ y₁ x₂ y₂ pp₁ pp₂ vv₁ vv₂ => rfl⟩
  unfold WiXBundleInstallerBuilder.upgrade_code_value
  rw [hb]

/-- C10 witness at concrete builders. -/
theorem c10_upgrade_codes_witness :
    WiXInstallerBuilder.upgrade_code ⟨"x86_64-pc-windows-msvc", [], [], [], []⟩ "app" =
        uuidV5String namespaceDNS
          ("tugger.installer." ++ "app" ++ "." ++ "x86_64-pc-windows-msvc")
      ∧ WiXInstallerBuilder.upgrade_code ⟨"x86_64-pc-windows-msvc", [], [], [], []⟩ "app" ≠
          WiXInstallerBuilder.upgrade_code ⟨"i686-pc-windows-msvc", [], [], [], []⟩ "app"
      ∧ WiXBundleInstallerBuilder.upgrade_code_value
            ⟨"app", "0.1", "mfr", none, false, false, [], []⟩ =
          uuidV5String namespaceDNS ("tugger.bundle." ++ "app")
      ∧ WiXBundleInstallerBuilder.upgrade_code_value
            ⟨"app", "0.1", "mfr", none, true, false, [], []⟩ =
          WiXBundleInstallerBuilder.upgrade_code_value
            ⟨"app", "0.2", "other", none, false, true, [], []⟩ :=
  ⟨c10_upgrade_codes.1 ⟨"x86_64-pc-windows-msvc", [], [], [], []⟩ "app",
    c10_upgrade_codes.2.1,
    c10_upgrade_codes.2.2.1 ⟨"app", "0.1", "mfr", none, false, false, [], []⟩ rfl,
    c10_upgrade_codes.2.2.2 "app" "0.1" "0.2" "mfr" "other" true false false true [] [] [] []⟩
